import Mathlib

/-!
A verification development for the APPX/APPXBUNDLE packager
(`fb-util-for-appx`).  The C++ sources are shallowly embedded:

* C++ `std::string` values (archive names, XML texts, uncompressed file
  contents) are modelled as `List Char`; every byte of interest is an
  unsigned char, so theorems that depend on byte values restrict the
  characters to code points below 256.
* Raw archive byte streams are `List Nat`, each element a byte value.
* `off_t`/`size_t` counters only ever hold non-negative byte counts here
  and are modelled as `Nat`.
* External primitives (OpenSSL SHA-256, zlib `crc32`, OpenSSL base64,
  zlib DEFLATE streams) are parameters of the model: the packager only
  chooses *which* bytes flow into them, which is what the claims are
  about.  Theorems quantify over every behaviour of these parameters.
* Fallible operations (`XMLEncodeString` throws `std::runtime_error`)
  are modelled with `Option`; a `none` result corresponds to the C++
  exception escaping `WriteAppx`.
-/

namespace FBAppx

/-- C++ `std::string`, as a list of byte-sized characters. -/
abbrev Str := List Char

/-- A raw byte stream (each element one byte value). -/
abbrev Bytes := List Nat

/-- The byte values of a string, as written to the archive. -/
def strBytes (s : Str) : Bytes :=
  s.map Char.toNat

/-!
## Name sanitisation (`Sources/ZIP.cpp`, `ZIPFileEntry::SanitizedFileName`)
-/

/-- The whitelist string from `SanitizedFileName` in `Sources/ZIP.cpp`:
lowercase letters, uppercase letters, digits, and `-._~/`. -/
def zipWhitelist : Str :=
  ("abcdefghijklmnopqrstuvwxyz" ++
   "ABCDEFGHIJKLMNOPQRSTUVWXYZ" ++
   "0123456789" ++
   "-._~/").toList

/-- `std::strchr(kWhitelist, c)`: searches the whitelist *including its
terminating NUL byte*, so `c == '\0'` also reports a hit. -/
def strchrZipWhitelist (c : Char) : Bool :=
  zipWhitelist.contains c || c == Char.ofNat 0

/-- One uppercase hexadecimal digit, as produced by `%X`. -/
def hexDigitUpper (n : Nat) : Char :=
  if n < 10 then Char.ofNat (48 + n) else Char.ofNat (55 + n)

/-- `snprintf(buffer, 4, "%%%02X", static_cast<unsigned char>(c))`:
a percent sign followed by the two uppercase hex digits of the byte
value of `c` (the cast reduces the value modulo 256). -/
def percentEncodeChar (c : Char) : Str :=
  ['%', hexDigitUpper (c.toNat % 256 / 16), hexDigitUpper (c.toNat % 16)]

/-- The verbatim special-case name `[Content_Types].xml`. -/
def contentTypesFileName : Str := "[Content_Types].xml".toList

/-- The character loop of `SanitizedFileName`: whitelist hits (including
the NUL quirk of `strchr`) are copied, everything else is
percent-encoded. -/
def sanitizeLoop : Str → Str
  | [] => []
  | c :: rest =>
      (if strchrZipWhitelist c then [c] else percentEncodeChar c) ++ sanitizeLoop rest

/-- `ZIPFileEntry::SanitizedFileName` from `Sources/ZIP.cpp`. -/
def sanitizedFileName (fileName : Str) : Str :=
  if fileName = contentTypesFileName then fileName
  else sanitizeLoop fileName

/-!
## `XMLEncodeString` (`Sources/XML.cpp`)

The function does not escape anything: it scans for the first character
outside its whitelist and throws `std::runtime_error` if one exists,
otherwise it returns its argument unchanged.  `none` models the throw.
-/

/-- The whitelist string from `XMLEncodeString` in `Sources/XML.cpp`. -/
def xmlWhitelist : Str :=
  ("abcdefghijklmnopqrstuvwxyz" ++
   "ABCDEFGHIJKLMNOPQRSTUVWXYZ" ++
   "0123456789" ++
   ".[]() _-+\\%").toList

/-- `XMLEncodeString`: identity on whitelisted strings, error otherwise. -/
def xmlEncodeString (s : Str) : Option Str :=
  if s.all (fun c => xmlWhitelist.contains c) then some s else none

/-!
## Decimal rendering (`std::to_string` on a non-negative value)
-/

/-- One decimal digit character. -/
def decDigit (n : Nat) : Char := Char.ofNat (48 + n % 10)

/-- Accumulator loop for decimal rendering (most significant digit
first).  The first argument is structural-recursion fuel: the value is
divided by ten on every step, so any fuel of at least the digit count
(in particular `n` itself) yields the full decimal rendering. -/
def natToDecimalAux : Nat → Nat → Str → Str
  | 0, n, acc => decDigit n :: acc
  | fuel + 1, n, acc =>
      if n < 10 then decDigit n :: acc
      else natToDecimalAux fuel (n / 10) (decDigit (n % 10) :: acc)

/-- `std::to_string` for the non-negative `off_t` values used by the
packager. -/
def natToDecimal (n : Nat) : Str := natToDecimalAux n n []

/-!
## `std::string::find` and the offset-placeholder loop
(`_ManifestContentsAfterPopulatingOffsets`, `PrivateHeaders/APPX/ZIP.h`)
-/

/-- Search helper: the smallest index `i` with `pos ≤ i` at which `pat`
occurs in `text`, scanning indices `pos, pos+1, …, text.length`. -/
def findSubAux (pat text : Str) : Nat → Nat → Option Nat
  | _, 0 => none
  | i, fuel + 1 =>
      if pat.isPrefixOf (text.drop i) then some i
      else findSubAux pat text (i + 1) fuel

/-- `std::string::find(pat, pos)`, with `none` for `npos`. -/
def findSub (pat text : Str) (pos : Nat) : Option Nat :=
  findSubAux pat text pos (text.length + 1 - pos)

/-- The `while ((pos = manifestText.find(...)) != npos)` loop of
`_ManifestContentsAfterPopulatingOffsets`: replace the occurrence found
at `pos` and resume the search *at the same index*.

Termination: at every call site `pat` is `fileName + "-offset"` (so it
contains a dash) and `repl` is a `std::to_string` result (digits only),
hence each replacement strictly decreases the number of dashes in the
text.  The guard materialises exactly that measure decrease; it never
fails at a call site of the packager. -/
def replLoop (pat repl : Str) (text : Str) (pos : Nat) : Str :=
  match findSub pat text pos with
  | none => text
  | some i =>
      if h : (text.take i ++ repl ++ text.drop (i + pat.length)).count ('-') <
          text.count ('-') then
        replLoop pat repl (text.take i ++ repl ++ text.drop (i + pat.length)) i
      else
        text.take i ++ repl ++ text.drop (i + pat.length)
termination_by text.count ('-')
decreasing_by
  exact h

/-- The placeholder searched for one entry: `entry.fileName + "-offset"`. -/
def offsetTemplateName (fileName : Str) : Str :=
  fileName ++ "-offset".toList

/-!
## ZIP data model (`PrivateHeaders/APPX/ZIP.h`)
-/

/-- Hard-coded MS-DOS file time (`kFileTime`). -/
def kFileTime : Nat := 0x8706

/-- Hard-coded MS-DOS file date (`kFileDate`). -/
def kFileDate : Nat := 0x4722

/-- `kArchiverVersion`. -/
def kArchiverVersion : Nat := 45

/-- `kFileExtractVersion`. -/
def kFileExtractVersion : Nat := 20

/-- `kArchiveExtractVersion`. -/
def kArchiveExtractVersion : Nat := 45

/-- `ZIPBlock::kSize`: uncompressed bytes per block-map block. -/
def kBlockSize : Nat := 65536

/-- `ZIPCompressionType`. -/
inductive ZIPCompressionType where
  | Store
  | Deflate
deriving DecidableEq, Repr

/-- The on-wire method code of a compression type (Store = 0,
Deflate = 8). -/
def ZIPCompressionType.code : ZIPCompressionType → Nat
  | .Store => 0
  | .Deflate => 8

/-- `ZIPBlock::kNotCompressed` (`off_t` sentinel `-1`). -/
def kNotCompressed : Int := -1

/-- `SHA256Hash()`: the default constructor zero-fills all 32 bytes. -/
def zeroHash32 : Bytes := List.replicate 32 0

/-- `ZIPBlock`: per-64-KiB-window metadata.  `compressedSize` is the
`off_t` field, `-1` when the enclosing entry is stored. -/
structure ZIPBlock where
  sha256 : Bytes
  compressedSize : Int
deriving DecidableEq, Repr

/-- `ZIPFileEntry`.  Sizes and offsets are the non-negative `off_t`
values tracked by the packager. -/
structure ZIPFileEntry where
  fileName : Str
  sanitizedFileName : Str
  compressedSize : Nat
  uncompressedSize : Nat
  compressionType : ZIPCompressionType
  fileRecordHeaderOffset : Nat
  crc32 : Nat
  blocks : List ZIPBlock
  sha256 : Bytes
deriving DecidableEq, Repr

/-- The primary `ZIPFileEntry` constructor: it derives
`sanitizedFileName` from `fileName` via `SanitizedFileName`. -/
def mkZIPFileEntry (fileName : Str) (compressedSize uncompressedSize : Nat)
    (compressionType : ZIPCompressionType) (fileRecordHeaderOffset : Nat)
    (crc32 : Nat) (blocks : List ZIPBlock) (sha256 : Bytes) : ZIPFileEntry :=
  { fileName := fileName
    sanitizedFileName := sanitizedFileName fileName
    compressedSize := compressedSize
    uncompressedSize := uncompressedSize
    compressionType := compressionType
    fileRecordHeaderOffset := fileRecordHeaderOffset
    crc32 := crc32
    blocks := blocks
    sha256 := sha256 }

/-- The convenience constructor for stored entries (one size argument,
`Store`). -/
def mkStoredZIPFileEntry (fileName : Str) (size : Nat)
    (fileRecordHeaderOffset : Nat) (crc32 : Nat) (blocks : List ZIPBlock)
    (sha256 : Bytes) : ZIPFileEntry :=
  mkZIPFileEntry fileName size size .Store fileRecordHeaderOffset crc32 blocks
    sha256

/-- `ZIPFileEntry::FileRecordHeaderSize`: 30 fixed bytes plus the
sanitised name. -/
def ZIPFileEntry.fileRecordHeaderSize (e : ZIPFileEntry) : Nat :=
  30 + e.sanitizedFileName.length

/-- `ZIPFileEntry::FileRecordSize`. -/
def ZIPFileEntry.fileRecordSize (e : ZIPFileEntry) : Nat :=
  e.fileRecordHeaderSize + e.compressedSize

/-- `ZIPFileEntry::DirectoryEntrySize`: 46 fixed bytes plus the
sanitised name. -/
def ZIPFileEntry.directoryEntrySize (e : ZIPFileEntry) : Nat :=
  46 + e.sanitizedFileName.length

/-!
Little-endian field encoders (`FB_BYTES_2_LE` / `FB_BYTES_4_LE` /
`FB_BYTES_8_LE` from `PrivateHeaders/APPX/Encode.h`).  Every value the
claims touch is in range, so the `RangeChecker` throw path is not
modelled; each emitted byte is the corresponding shifted byte of the
value.
-/

/-- Two little-endian bytes. -/
def bytes2LE (n : Nat) : Bytes := [n % 256, n / 2 ^ 8 % 256]

/-- Four little-endian bytes. -/
def bytes4LE (n : Nat) : Bytes :=
  [n % 256, n / 2 ^ 8 % 256, n / 2 ^ 16 % 256, n / 2 ^ 24 % 256]

/-- Eight little-endian bytes. -/
def bytes8LE (n : Nat) : Bytes :=
  [n % 256, n / 2 ^ 8 % 256, n / 2 ^ 16 % 256, n / 2 ^ 24 % 256,
   n / 2 ^ 32 % 256, n / 2 ^ 40 % 256, n / 2 ^ 48 % 256, n / 2 ^ 56 % 256]

/-- `ZIPFileEntry::WriteFileRecordHeader`: the 30-byte local file header
followed by the sanitised name. -/
def ZIPFileEntry.fileRecordHeaderBytes (e : ZIPFileEntry) : Bytes :=
  bytes4LE 0x04034B50 ++
  bytes2LE kFileExtractVersion ++
  bytes2LE 0 ++
  bytes2LE e.compressionType.code ++
  bytes2LE kFileTime ++ bytes2LE kFileDate ++
  bytes4LE e.crc32 ++
  bytes4LE e.compressedSize ++
  bytes4LE e.uncompressedSize ++
  bytes2LE e.sanitizedFileName.length ++
  bytes2LE 0 ++
  strBytes e.sanitizedFileName

/-- `ZIPFileEntry::WriteDirectoryEntry`: the 46-byte central-directory
header followed by the sanitised name. -/
def ZIPFileEntry.directoryEntryBytes (e : ZIPFileEntry) : Bytes :=
  bytes4LE 0x02014B50 ++
  bytes2LE kArchiverVersion ++
  bytes2LE kFileExtractVersion ++
  bytes2LE 0 ++
  bytes2LE e.compressionType.code ++
  bytes2LE kFileTime ++ bytes2LE kFileDate ++
  bytes4LE e.crc32 ++
  bytes4LE e.compressedSize ++
  bytes4LE e.uncompressedSize ++
  bytes2LE e.sanitizedFileName.length ++
  bytes2LE 0 ++
  bytes2LE 0 ++
  bytes2LE 0 ++
  bytes2LE 0 ++
  bytes4LE 0 ++
  bytes4LE e.fileRecordHeaderOffset ++
  strBytes e.sanitizedFileName

/-- `WriteZIPEndOfCentralDirectoryRecord`: ZIP64 end-of-central-directory
record, ZIP64 locator, and classic end record. -/
def endOfCentralDirectoryBytes (offset : Nat) (entries : List ZIPFileEntry) :
    Bytes :=
  let directoryEntriesSize :=
    entries.foldl (fun acc e => acc + e.directoryEntrySize) 0
  let fileRecordsSize :=
    entries.foldl (fun acc e => acc + e.fileRecordSize) 0
  bytes4LE 0x06064B50 ++
  bytes8LE (56 - 12) ++
  bytes2LE kArchiverVersion ++
  bytes2LE kArchiveExtractVersion ++
  bytes4LE 0 ++
  bytes4LE 0 ++
  bytes8LE entries.length ++
  bytes8LE entries.length ++
  bytes8LE directoryEntriesSize ++
  bytes8LE fileRecordsSize ++
  bytes4LE 0x07064B50 ++
  bytes4LE 0 ++
  bytes8LE offset ++
  bytes4LE 1 ++
  bytes4LE 0x06054B50 ++
  bytes2LE 0 ++
  bytes2LE 0 ++
  bytes4LE 0xFFFFFFFF ++
  bytes4LE 0xFFFFFFFF ++
  bytes4LE 0xFFFFFFFF ++
  bytes2LE 0

/-- `_IsAPPXFile`: the name must be *strictly longer* than `.appx` and
end with it. -/
def isAPPXFile (inputFileName : Str) : Bool :=
  let suffix := ".appx".toList
  decide (suffix.length < inputFileName.length) &&
    suffix.isSuffixOf inputFileName

/-- `_ManifestContentsAfterPopulatingOffsets`, with the manifest file
contents passed in directly (the C++ function reads them from disk).
For each previously written entry, every occurrence of
`fileName + "-offset"` is replaced by the decimal data offset
`fileRecordHeaderOffset + FileRecordHeaderSize`. -/
def manifestContentsAfterPopulatingOffsets (manifestText : Str)
    (otherEntries : List ZIPFileEntry) : Str :=
  otherEntries.foldl
    (fun text entry =>
      replLoop (offsetTemplateName entry.fileName)
        (natToDecimal (entry.fileRecordHeaderOffset + entry.fileRecordHeaderSize))
        text 0)
    manifestText

/-!
## Sinks (`PrivateHeaders/APPX/Sink.h`)
-/

/-- External primitives used by the packager.  The packager never looks
inside a digest, so the claims hold for every choice of these
functions.

* `sha256`: OpenSSL SHA-256 of a byte stream (`SHA256Sink` digests the
  bytes written so far);
* `crc32upd`: zlib `crc32`, folded over the bytes written so far from
  the initial state `crc32(0, nullptr, 0) = 0`;
* `base64`: the OpenSSL base64 BIO without newlines (`Base64Sink`). -/
structure Ext where
  sha256 : Bytes → Bytes
  crc32upd : Nat → Bytes → Nat
  base64 : Bytes → Str

/-- `sizeof(std::size_t)` on the targeted LP64 platforms. -/
def sizeofSizeT : Nat := 8

/-- `std::numeric_limits<unsigned int>::max()`. -/
def uintMax : Nat := 2 ^ 32 - 1

/-- `CRC32Sink::Write`: the guard compares `sizeof(size)` — the constant
8 — against `UINT_MAX`, and the `size` argument is then truncated by
`static_cast<unsigned int>` before being handed to zlib, so only the
first `size % 2^32` bytes of the buffer are digested.  `Except.error`
models the `std::range_error` throw. -/
def crc32SinkWrite (E : Ext) (crc : Nat) (bytes : Bytes) :
    Except String Nat :=
  if sizeofSizeT > uintMax then
    Except.error "Buffer is too big for zlib's crc32 function"
  else
    Except.ok (E.crc32upd crc (bytes.take (bytes.length % 2 ^ 32)))

/-- The state of a `ChunkSink` whose inner sinks are SHA-256 sinks: the
current inner sink is the list of bytes written to it so far, and
`chunks` holds the byte streams of the completed inner sinks in
order. -/
structure ChunkSinkSt where
  cur : Str
  chunks : List Str
deriving DecidableEq, Repr

/-- A `ChunkSink` starts with a fresh inner sink and no completed
chunks. -/
def chunkSinkInit : ChunkSinkSt := ⟨[], []⟩

/-- `ChunkSink::EndChunk`: a no-op when nothing was written to the
current inner sink; otherwise closes and retains it and starts a fresh
one. -/
def chunkSinkEndChunk (st : ChunkSinkSt) : ChunkSinkSt :=
  if st.cur.length = 0 then st else ⟨[], st.chunks ++ [st.cur]⟩

/-- One byte through `ChunkSink::Write`.  The C++ loop slices each
incoming buffer at window boundaries; feeding the bytes one at a time
has exactly the same effect on the `(written, chunks)` state, with
`EndChunk` firing as soon as the window fills. -/
def chunkSinkWrite1 (chunkSize : Nat) (st : ChunkSinkSt) (c : Char) :
    ChunkSinkSt :=
  let st1 : ChunkSinkSt := ⟨st.cur ++ [c], st.chunks⟩
  if st1.cur.length = chunkSize then chunkSinkEndChunk st1 else st1

/-- `ChunkSink::Write` over a whole buffer. -/
def chunkSinkWrite (chunkSize : Nat) (st : ChunkSinkSt) (bytes : Str) :
    ChunkSinkSt :=
  bytes.foldl (chunkSinkWrite1 chunkSize) st

/-- `ChunkSink::Close`: ends the trailing partial chunk (if non-empty).
Closing the freshly created inner sink afterwards does not change the
retained chunks. -/
def chunkSinkClose (st : ChunkSinkSt) : ChunkSinkSt :=
  chunkSinkEndChunk st

/-- The 64-KiB windows a full stream is cut into by a `ChunkSink`:
write everything, then close. -/
def chunkWindows (content : Str) : List Str :=
  (chunkSinkClose (chunkSinkWrite kBlockSize chunkSinkInit content)).chunks

/-!
### The abstract DEFLATE stream

zlib's compressor is external.  Its observable behaviour at the
granularity the packager uses it — write a window, full-flush at each
window boundary, finish at the end — is a state machine producing
output bytes; the claims hold for every such machine.
-/

/-- An abstract model of a zlib deflate stream opened with
`deflateInit2(.., Z_BEST_COMPRESSION, Z_DEFLATED, -MAX_WBITS, ..)`:
`write` consumes input with `Z_NO_FLUSH`, `flush` performs
`Z_FULL_FLUSH`, `close` performs `Z_FINISH`; each returns the bytes
pushed to the downstream sink. -/
structure DeflateModel where
  St : Type
  init : St
  write : St → Bytes → St × Bytes
  flush : St → St × Bytes
  close : St → Bytes

/-- Concatenation of a list of strings (repeated `operator+=`). -/
def strConcat (ls : List Str) : Str :=
  ls.foldr (fun a b => a ++ b) []

/-- Concatenation of a list of byte streams. -/
def bytesConcat (ls : List Bytes) : Bytes :=
  ls.foldr (fun a b => a ++ b) []

/-!
## Entry writing (`WriteZIPFileEntry`, `PrivateHeaders/APPX/ZIP.h`)

The data callback of the C++ template writes a determined stream of
uncompressed bytes into whatever sink it is given; the model receives
that stream as `content`.  Fan-out sinks see the same bytes, so the
pipeline below applies each leg of the C++ `MultiSink` to `content`.
-/

/-- Accumulator for the deflate path: deflate stream state, the
`DeflateSink::isEmpty` flag, the compressed output so far (the bytes
seen by `dataSink` and `compressedOffsetSink`), and the blocks recorded
for the completed chunks. -/
structure DeflateFoldSt (M : DeflateModel) where
  dst : M.St
  isEmpty : Bool
  out : Bytes
  blocks : List ZIPBlock

/-- One 64-KiB window through the deflate path's per-chunk sink
(`Chunk` in `WriteZIPFileEntry`): hash the window, feed it to the
shared deflate stream, and on chunk close issue a full flush and record
the compressed span between the chunk's construction and its close. -/
def deflateChunkStep (E : Ext) (M : DeflateModel) (st : DeflateFoldSt M)
    (w : Str) : DeflateFoldSt M :=
  let e1 := st.isEmpty && decide (w.length = 0)
  let (d1, o1) := M.write st.dst (strBytes w)
  let (d2, o2) := if e1 then (d1, ([] : Bytes)) else M.flush d1
  { dst := d2
    isEmpty := e1
    out := st.out ++ o1 ++ o2
    blocks := st.blocks ++
      [⟨E.sha256 (strBytes w), Int.ofNat (o1.length + o2.length)⟩] }

/-- `WriteZIPFileEntry` (the data-callback overload).  Returns the
constructed `ZIPFileEntry` together with the bytes the call pushes to
the output sink (local file header followed by the buffered body). -/
def writeZIPFileEntry (E : Ext) (M : DeflateModel) (offset : Nat)
    (archiveFileName : Str) (compressionLevel : Nat) (content : Str) :
    ZIPFileEntry × Bytes :=
  let level := if isAPPXFile archiveFileName then 0 else compressionLevel
  if level = 0 then
    -- Store path: MultiSink(crc32Sink, offsetSink, dataSink,
    -- ChunkSink(64 KiB, SHA256Sink)).
    let chunks := chunkWindows content
    let blocks := chunks.map
      (fun w => (⟨E.sha256 (strBytes w), kNotCompressed⟩ : ZIPBlock))
    let crc := E.crc32upd 0 (strBytes content)
    let size := content.length
    let entry := mkZIPFileEntry archiveFileName size size .Store offset crc
      blocks zeroHash32
    (entry, entry.fileRecordHeaderBytes ++ strBytes content)
  else
    -- Deflate path: ChunkSink(64 KiB, Chunk) over the uncompressed
    -- stream, one full flush per window; the trailing fresh chunk is
    -- closed by `ChunkSink::Close` (one more guarded flush), then the
    -- deflate stream is finished.
    let windows := chunkWindows content
    let st0 : DeflateFoldSt M := ⟨M.init, true, [], []⟩
    let stF := windows.foldl (deflateChunkStep E M) st0
    let (dE, oE) := if stF.isEmpty then (stF.dst, ([] : Bytes))
      else M.flush stF.dst
    let data := stF.out ++ oE ++ M.close dE
    let crc := E.crc32upd 0 (strBytes content)
    let entry := mkZIPFileEntry archiveFileName data.length content.length
      .Deflate offset crc stF.blocks zeroHash32
    (entry, entry.fileRecordHeaderBytes ++ data)

/-!
## `[Content_Types].xml` synthesis (`WriteContentTypesZIPFileEntry`)
-/

/-- One XML element of the generated `[Content_Types].xml` body. -/
inductive CTElem where
  | default (extension contentType : Str)
  | override (partName contentType : Str)
deriving DecidableEq, Repr

/-- Is this element a `<Default>` element? -/
def CTElem.isDefault : CTElem → Bool
  | .default _ _ => true
  | .override _ _ => false

/-- Lookup in `sKnownContentTypes` (with the bundle-dependent `xml`
entry). -/
def knownContentType (isBundle : Bool) (ext : Str) : Option Str :=
  if ext = "appx".toList then some "application/vnd.ms-appx".toList
  else if ext = "dll".toList then some "application/x-msdownload".toList
  else if ext = "exe".toList then some "application/x-msdownload".toList
  else if ext = "png".toList then some "image/png".toList
  else if ext = "xml".toList then
    if isBundle then some "application/vnd.ms-appx.bundlemanifest+xml".toList
    else some "application/vnd.ms-appx.manifest+xml".toList
  else none

/-- `kDefaultContentType`. -/
def kDefaultContentType : Str := "application/octet-stream".toList

/-- `sanitizedFileName.rfind(c) + 1`: index one past the last occurrence
of `c`, and 0 when `c` does not occur (`npos + 1` wraps to 0). -/
def rfindPlusOne (c : Char) : Str → Nat
  | [] => 0
  | x :: xs =>
      let r := rfindPlusOne c xs
      if r = 0 then (if x = c then 1 else 0) else r + 1

/-- The per-entry loop of `WriteContentTypesZIPFileEntry`, threading
`writtenExtensions`.  Extensions are read from the *sanitised* name:
the suffix after the last `.`, provided that dot comes after the last
`/`.  A `none` result models an `XMLEncodeString` throw. -/
def contentTypesLoop (isBundle : Bool) :
    List ZIPFileEntry → List Str → Option (List CTElem)
  | [], _ => some []
  | e :: rest, written =>
      let s := e.sanitizedFileName
      let baseNamePos := rfindPlusOne '/' s
      let extensionPos := rfindPlusOne '.' s
      if extensionPos > baseNamePos then
        let ext := s.drop extensionPos
        if ext ∈ written then contentTypesLoop isBundle rest written
        else do
          let contentType := (knownContentType isBundle ext).getD
            kDefaultContentType
          let extE ← xmlEncodeString ext
          let contentTypeE ← xmlEncodeString contentType
          let tail ← contentTypesLoop isBundle rest (written ++ [ext])
          some (CTElem.default extE contentTypeE :: tail)
      else do
        let partE ← xmlEncodeString s
        let contentTypeE ← xmlEncodeString kDefaultContentType
        let tail ← contentTypesLoop isBundle rest written
        some (CTElem.override partE contentTypeE :: tail)

/-- Rendering of one content-types element, exactly as streamed by the
C++ code. -/
def renderCTElem : CTElem → Str
  | .default ext contentType =>
      "<Default Extension=\"".toList ++ ext ++
      "\" ContentType=\"".toList ++ contentType ++ "\"/>".toList
  | .override part contentType =>
      "<Override PartName=\"/".toList ++ part ++
      "\" ContentType=\"".toList ++ contentType ++ "\"/>".toList

/-- XML declaration plus `<Types …>` opening tag. -/
def ctHeader : Str :=
  ("<?xml version=\"1.0\" encoding=\"UTF-8\" standalone=\"yes\"?>\r\n" ++
   "<Types xmlns=\"http://schemas.openxmlformats.org/package/2006/" ++
   "content-types\">").toList

/-- The three fixed `<Override>` elements appended after the loop. -/
def ctFixedOverrides : Str :=
  ("<Override PartName=\"/AppxBlockMap.xml\" " ++
   "ContentType=\"application/vnd.ms-appx.blockmap+xml\"/>" ++
   "<Override PartName=\"/AppxSignature.p7x\" " ++
   "ContentType=\"application/vnd.ms-appx.signature\"/>" ++
   "<Override PartName=\"/AppxMetadata/CodeIntegrity.cat\" " ++
   "ContentType=\"application/vnd.ms-pkiseccat\"/>").toList

/-- The element list and full text of `[Content_Types].xml`. -/
def contentTypesElemsXml (isBundle : Bool) (otherEntries : List ZIPFileEntry) :
    Option (List CTElem × Str) := do
  let elems ← contentTypesLoop isBundle otherEntries []
  some (elems,
    ctHeader ++ strConcat (elems.map renderCTElem) ++ ctFixedOverrides ++
    "</Types>".toList)

/-- `WriteContentTypesZIPFileEntry`: builds the XML, CRCs and hashes it,
stores it (name `[Content_Types].xml`, kept verbatim by sanitisation),
and emits header plus body.  Also returns the element list for the
statements below. -/
def writeContentTypesZIPFileEntry (E : Ext) (offset : Nat) (isBundle : Bool)
    (otherEntries : List ZIPFileEntry) :
    Option (ZIPFileEntry × Bytes × List CTElem) := do
  let (elems, xml) ← contentTypesElemsXml isBundle otherEntries
  let xmlB := strBytes xml
  let entry := mkStoredZIPFileEntry contentTypesFileName xml.length offset
    (E.crc32upd 0 xmlB) [] (E.sha256 xmlB)
  some (entry, entry.fileRecordHeaderBytes ++ xmlB, elems)

/-!
## `AppxBlockMap.xml` synthesis (`WriteAppxBlockMapZIPFileEntry`)
-/

/-- `std::replace(fixedFileName.begin(), .., '/', '\\')`. -/
def slashToBackslash (s : Str) : Str :=
  s.map (fun c => if c = '/' then '\\' else c)

/-- The `Name` attribute of a `<File>` element: the slash-rewritten
archive name passed through `XMLEncodeString`. -/
def bmNameAttr (e : ZIPFileEntry) : Option Str :=
  xmlEncodeString (slashToBackslash e.fileName)

/-- Rendering of one `<Block>` element. -/
def renderBMBlock (E : Ext) (b : ZIPBlock) : Str :=
  "<Block Hash=\"".toList ++ E.base64 b.sha256 ++ "\"".toList ++
  (if b.compressedSize ≠ kNotCompressed then
    " Size=\"".toList ++ natToDecimal b.compressedSize.toNat ++ "\"".toList
  else []) ++
  "/>".toList

/-- Rendering of one `<File>` element (`none` when `XMLEncodeString`
throws on the name). -/
def renderBMFile (E : Ext) (e : ZIPFileEntry) : Option Str := do
  let nameE ← bmNameAttr e
  some ("<File Name=\"".toList ++ nameE ++
    "\" Size=\"".toList ++ natToDecimal e.uncompressedSize ++
    "\" LfhSize=\"".toList ++ natToDecimal e.fileRecordHeaderSize ++
    "\">".toList ++
    strConcat (e.blocks.map (renderBMBlock E)) ++
    "</File>".toList)

/-- The entries listed in the block map: in bundle mode, nested `.appx`
files are skipped. -/
def blockMapListedEntries (isBundle : Bool) (otherEntries : List ZIPFileEntry) :
    List ZIPFileEntry :=
  otherEntries.filter (fun e => !(isBundle && isAPPXFile e.fileName))

/-- Sequences the `<File>` renderings. -/
def renderBMFiles (E : Ext) : List ZIPFileEntry → Option Str
  | [] => some []
  | e :: rest => do
      let s ← renderBMFile E e
      let tail ← renderBMFiles E rest
      some (s ++ tail)

/-- XML declaration plus `<BlockMap …>` opening tag. -/
def bmHeader : Str :=
  ("<?xml version=\"1.0\" encoding=\"UTF-8\" standalone=\"no\"?>\r\n" ++
   "<BlockMap xmlns=\"http://schemas.microsoft.com/appx/2010/blockmap\" " ++
   "HashMethod=\"http://www.w3.org/2001/04/xmlenc#sha256\">").toList

/-- The full text of `AppxBlockMap.xml`. -/
def blockMapXml (E : Ext) (otherEntries : List ZIPFileEntry)
    (isBundle : Bool) : Option Str := do
  let files ← renderBMFiles E (blockMapListedEntries isBundle otherEntries)
  some (bmHeader ++ files ++ "</BlockMap>".toList)

/-- `WriteAppxBlockMapZIPFileEntry`. -/
def writeAppxBlockMapZIPFileEntry (E : Ext) (offset : Nat)
    (otherEntries : List ZIPFileEntry) (isBundle : Bool) :
    Option (ZIPFileEntry × Bytes) := do
  let xml ← blockMapXml E otherEntries isBundle
  let xmlB := strBytes xml
  let entry := mkStoredZIPFileEntry "AppxBlockMap.xml".toList xml.length
    offset (E.crc32upd 0 xmlB) [] (E.sha256 xmlB)
  some (entry, entry.fileRecordHeaderBytes ++ xmlB)

/-!
## Digests and signing (`PrivateHeaders/APPX/Sign.h`, `Sources/APPX.cpp`)
-/

/-- `APPXDigests`: the five 32-byte digests.  Each `SHA256Hash` member
is zero-filled on construction. -/
structure APPXDigests where
  axpc : Bytes
  axcd : Bytes
  axct : Bytes
  axbm : Bytes
  axci : Bytes
deriving DecidableEq, Repr

/-- The default-constructed digest set (all zero-filled). -/
def initDigests : APPXDigests :=
  ⟨zeroHash32, zeroHash32, zeroHash32, zeroHash32, zeroHash32⟩

/-- The digest assignments of `WriteAppx`: starting from the
default-constructed `APPXDigests`, the code assigns `axbm` and `axct`
from the synthesised entries, `axpc` from the payload-phase SHA-256
sink, and `axcd` from the simulated directory bytes.  No statement in
`WriteAppx` (or anywhere in the sources) assigns `axci`. -/
def assembleDigests (E : Ext) (axbmHash axctHash axpcAcc axcdBytes : Bytes) :
    APPXDigests :=
  { initDigests with
    axbm := axbmHash
    axct := axctHash
    axpc := E.sha256 axpcAcc
    axcd := E.sha256 axcdBytes }

/-- `APPXDigests::Write`: the serialised blob handed to the signer —
`"APPX"` then each tag (`AXPC`, `AXCD`, `AXCT`, `AXBM`, `AXCI`)
followed by its 32 digest bytes. -/
def digestsBlob (d : APPXDigests) : Bytes :=
  strBytes "APPX".toList ++
  strBytes "AXPC".toList ++ d.axpc ++
  strBytes "AXCD".toList ++ d.axcd ++
  strBytes "AXCT".toList ++ d.axct ++
  strBytes "AXBM".toList ++ d.axbm ++
  strBytes "AXCI".toList ++ d.axci

/-- `WriteSignature` (`Sources/APPX.cpp`): the uncompressed body is the
`"PKCX"` magic followed by the DER-encoded PKCS#7 blob, deflated with a
fresh `Z_BEST_COMPRESSION` stream (write, then finish; no flush).
Returns the entry and the bytes written to the archive. -/
def writeSignature (E : Ext) (M : DeflateModel) (sigDER : Bytes)
    (offset : Nat) : ZIPFileEntry × Bytes :=
  let body := strBytes "PKCX".toList ++ sigDER
  let (d1, o1) := M.write M.init body
  let data := o1 ++ M.close d1
  let entry := mkZIPFileEntry "AppxSignature.p7x".toList data.length
    body.length .Deflate offset (E.crc32upd 0 body) [] zeroHash32
  (entry, entry.fileRecordHeaderBytes ++ data)

/-!
## Orchestration (`WriteAppx`, `Sources/APPX.cpp`)
-/

/-- One input: an archive name mapped to the uncompressed contents of
the local file it refers to (the C++ map carries a path; the model
carries the bytes read from it). -/
structure AppxInput where
  archiveName : Str
  contents : Str
deriving DecidableEq, Repr

/-- The sink state of the orchestrator: the output file bytes
(`FileSink`), the running offset (`zipOffsetSink`), and the byte stream
accumulated by the `axpc` SHA-256 sink. -/
structure AppxSinkSt where
  fileBytes : Bytes
  offset : Nat
  axpcAcc : Bytes
deriving DecidableEq, Repr

/-- A write through `zipSink` only (raw file plus offset counter). -/
def zipWrite (st : AppxSinkSt) (b : Bytes) : AppxSinkSt :=
  ⟨st.fileBytes ++ b, st.offset + b.length, st.axpcAcc⟩

/-- A write through the phase-one sink (`zipSink` fanned out with the
`axpc` SHA-256 sink). -/
def phase1Write (st : AppxSinkSt) (b : Bytes) : AppxSinkSt :=
  ⟨st.fileBytes ++ b, st.offset + b.length, st.axpcAcc ++ b⟩

/-- The `AppxBundleManifest.xml` suffix test in `WriteAppx` (strictly
shorter suffix, compared from the back). -/
def isBundleManifestName (archiveName : Str) : Bool :=
  let suffix := "AppxBundleManifest.xml".toList
  decide (suffix.length < archiveName.length) &&
    suffix.isSuffixOf archiveName

/-- State threaded through the payload loop of `WriteAppx`. -/
structure PayloadSt where
  sink : AppxSinkSt
  entries : List ZIPFileEntry
  records : List Bytes
  bundleManifest : Str × Str
deriving DecidableEq, Repr

/-- The payload loop body: bundle-manifest inputs are remembered (last
one wins) and skipped in bundle mode; every other input is written as a
ZIP entry at the current offset. -/
def payloadStep (E : Ext) (M : DeflateModel) (compressionLevel : Nat)
    (isBundle : Bool) (st : PayloadSt) (input : AppxInput) : PayloadSt :=
  if isBundle && isBundleManifestName input.archiveName then
    { st with bundleManifest := (input.archiveName, input.contents) }
  else
    let (entry, rec) := writeZIPFileEntry E M st.sink.offset
      input.archiveName compressionLevel input.contents
    { st with
      sink := phase1Write st.sink rec
      entries := st.entries ++ [entry]
      records := st.records ++ [rec] }

/-- Everything `WriteAppx` produces, together with the observation
fields the statements below inspect: the per-entry record byte lists of
the pre-signature phase, the signature record (if signing), the
directory and trailer bytes, the content-types element list, and the
digest blob handed to the signer. -/
structure AppxOutput where
  fileBytes : Bytes
  digests : APPXDigests
  entries : List ZIPFileEntry
  preSignatureRecords : List Bytes
  signatureRecord : Option Bytes
  directoryBytes : Bytes
  ctElems : List CTElem
  signerBlob : Option Bytes
deriving DecidableEq, Repr

/-- The phases of `WriteAppx` from the block-map entry onwards, given
the payload-phase state `stB`.  `signer` models `Sign(certPath,
digests)` followed by `GetSignatureBytes`: the DER PKCS#7 bytes
produced for the serialised digest blob; `none` models a null
`certPath`.  A `none` result models an exception escaping `WriteAppx`
(an `XMLEncodeString` failure). -/
def writeAppxSynthPhase (E : Ext) (M : DeflateModel)
    (signer : Option (Bytes → Bytes)) (isBundle : Bool)
    (stB : PayloadSt) : Option AppxOutput := do
  -- AppxBlockMap.xml.
  let (blockMapEntry, blockMapRec) ←
    writeAppxBlockMapZIPFileEntry E stB.sink.offset stB.entries isBundle
  let sinkBM := phase1Write stB.sink blockMapRec
  let entriesBM := stB.entries ++ [blockMapEntry]
  -- [Content_Types].xml, generated from the entries written so far
  -- (the block-map entry included).
  let (contentTypesEntry, contentTypesRec, ctElems) ←
    writeContentTypesZIPFileEntry E sinkBM.offset isBundle entriesBM
  let sinkCT := phase1Write sinkBM contentTypesRec
  let entriesCT := entriesBM ++ [contentTypesEntry]
  -- Digest assignments, including the hash (but not write) of the
  -- pre-signature directory.
  let preDirectory := bytesConcat (entriesCT.map (·.directoryEntryBytes))
  let digests := assembleDigests E blockMapEntry.sha256
    contentTypesEntry.sha256 sinkCT.axpcAcc
    (preDirectory ++
      endOfCentralDirectoryBytes (sinkCT.offset + preDirectory.length)
        entriesCT)
  -- Sign and write the signature.
  let (sinkS, entriesS, sigRecord, signerBlob) :=
    match signer with
    | some sign =>
        let blob := digestsBlob digests
        let (sigEntry, sigRec) := writeSignature E M (sign blob) sinkCT.offset
        (zipWrite sinkCT sigRec, entriesCT ++ [sigEntry], some sigRec,
         some blob)
    | none => (sinkCT, entriesCT, none, none)
  -- Write the directory and trailer.
  let directory := bytesConcat (entriesS.map (·.directoryEntryBytes))
  let sinkD := zipWrite sinkS directory
  let trailer := endOfCentralDirectoryBytes sinkD.offset entriesS
  let sinkF := zipWrite sinkD trailer
  some
    { fileBytes := sinkF.fileBytes
      digests := digests
      entries := entriesS
      preSignatureRecords := stB.records ++ [blockMapRec, contentTypesRec]
      signatureRecord := sigRecord
      directoryBytes := directory ++ trailer
      ctElems := ctElems
      signerBlob := signerBlob }

/-- The payload-plus-bundle-manifest phase of `WriteAppx`: the caller
entries in input order, then (in bundle mode) the withheld manifest
entry with the recorded offsets patched into its placeholders. -/
def bundleManifestStep (E : Ext) (M : DeflateModel)
    (compressionLevel : Nat) (stP : PayloadSt) : PayloadSt :=
  let manifestContents := manifestContentsAfterPopulatingOffsets
    stP.bundleManifest.2 stP.entries
  let (entry, rec) := writeZIPFileEntry E M stP.sink.offset
    stP.bundleManifest.1 compressionLevel manifestContents
  { stP with
    sink := phase1Write stP.sink rec
    entries := stP.entries ++ [entry]
    records := stP.records ++ [rec] }

def writeAppxPayloadPhase (E : Ext) (M : DeflateModel)
    (inputs : List AppxInput) (compressionLevel : Nat) (isBundle : Bool) :
    PayloadSt :=
  let st0 : PayloadSt := ⟨⟨[], 0, []⟩, [], [], ([], [])⟩
  let stP := inputs.foldl (payloadStep E M compressionLevel isBundle) st0
  if isBundle then bundleManifestStep E M compressionLevel stP
  else stP

/-- `WriteAppx` (`Sources/APPX.cpp`): the payload phase followed by the
synthesis, digest, signature, and directory phases. -/
def writeAppx (E : Ext) (M : DeflateModel) (inputs : List AppxInput)
    (signer : Option (Bytes → Bytes)) (compressionLevel : Nat)
    (isBundle : Bool) : Option AppxOutput :=
  writeAppxSynthPhase E M signer isBundle
    (writeAppxPayloadPhase E M inputs compressionLevel isBundle)

/-!
## Specification-side definitions and concrete instances

The definitions below are *not* translations of the C++ code; they are
reference formulations used to state properties about the definitions
above, plus concrete instantiations of the external-primitive
parameters used by closed counterexamples and witnesses.
-/

/-- The canonical partition of a stream into consecutive `c`-byte
windows with a final partial window (fuel-indexed helper; the fuel is
always instantiated with the stream length). -/
def chunksSpecF (c : Nat) : Nat → Str → List Str
  | _, [] => []
  | 0, l => [l]
  | fuel + 1, l => l.take c :: chunksSpecF c fuel (l.drop c)

/-- The canonical partition of a stream into consecutive `c`-byte
windows. -/
def chunksSpec (c : Nat) (l : Str) : List Str := chunksSpecF c l.length l

/-- Reference per-character sanitisation, stated the way the amended
claim reads: whitelist members and the NUL byte are copied, every other
byte becomes `%XX` with the uppercase hex digits of its value. -/
def specSanitizeChar (c : Char) : Str :=
  if c ∈ zipWhitelist ∨ c = Char.ofNat 0 then [c]
  else ['%', hexDigitUpper (c.toNat / 16), hexDigitUpper (c.toNat % 16)]

/-- Reference sanitisation of a whole name. -/
def specSanitizedName (name : Str) : Str :=
  if name = contentTypesFileName then name
  else name.flatMap specSanitizeChar

/-- A concrete external-primitive instance for closed statements: the
"hash" is 32 bytes of ones, the CRC state counts bytes, base64 is a
fixed tag.  The claims hold for every instance; this one makes the
model computable. -/
def sampleExt : Ext :=
  ⟨fun _ => List.replicate 32 1, fun crc b => crc + b.length,
   fun _ => "b64".toList⟩

/-- A concrete deflate-stream instance for closed statements: `write`
copies its input through, `flush` emits a single `7` marker byte,
finishing emits a single `9` marker byte. -/
def sampleDeflate : DeflateModel :=
  ⟨Unit, (), fun _ b => ((), b), fun _ => ((), [7]), fun _ => [9]⟩

/-!
## Helper lemmas: the chunk sink cuts a stream into canonical windows
-/

theorem chunksSpecF_nil (c f : Nat) : chunksSpecF c f [] = [] := by
  cases f <;> rfl

theorem chunksSpecF_congr (c : Nat) (hc : 0 < c) :
    ∀ f₁ f₂ (l : Str), l.length ≤ f₁ → l.length ≤ f₂ →
      chunksSpecF c f₁ l = chunksSpecF c f₂ l := by
  intro f₁
  induction f₁ with
  | zero =>
      intro f₂ l h1 _
      have hl : l = [] := List.eq_nil_of_length_eq_zero (Nat.le_zero.mp h1)
      subst hl
      simp [chunksSpecF_nil]
  | succ f ih =>
      intro f₂ l h1 h2
      cases l with
      | nil => simp [chunksSpecF_nil]
      | cons a t =>
          cases f₂ with
          | zero => simp at h2
          | succ f₂' =>
              show (a :: t).take c :: chunksSpecF c f ((a :: t).drop c) =
                (a :: t).take c :: chunksSpecF c f₂' ((a :: t).drop c)
              have hlen : ((a :: t).drop c).length = t.length + 1 - c := by
                simp [List.length_drop]
              have h1' : t.length + 1 ≤ f + 1 := by simpa using h1
              have h2' : t.length + 1 ≤ f₂' + 1 := by simpa using h2
              have hd : ((a :: t).drop c).length ≤ f := by rw [hlen]; omega
              have hd2 : ((a :: t).drop c).length ≤ f₂' := by rw [hlen]; omega
              rw [ih _ _ hd hd2]

theorem chunksSpec_nil (c : Nat) : chunksSpec c [] = [] := rfl

theorem chunksSpec_step (c : Nat) (hc : 0 < c) (l : Str) (hl : l ≠ []) :
    chunksSpec c l = l.take c :: chunksSpec c (l.drop c) := by
  cases l with
  | nil => exact absurd rfl hl
  | cons a t =>
      show (a :: t).take c :: chunksSpecF c t.length ((a :: t).drop c) =
        (a :: t).take c :: chunksSpecF c ((a :: t).drop c).length
          ((a :: t).drop c)
      have hlen : ((a :: t).drop c).length = t.length + 1 - c := by
        simp [List.length_drop]
      have hd : ((a :: t).drop c).length ≤ t.length := by rw [hlen]; omega
      rw [chunksSpecF_congr c hc _ _ _ hd (Nat.le_refl _)]

theorem chunksSpec_small (c : Nat) (hc : 0 < c) (l : Str) (hl : l ≠ [])
    (hlen : l.length ≤ c) : chunksSpec c l = [l] := by
  rw [chunksSpec_step c hc l hl, List.take_of_length_le hlen,
    List.drop_eq_nil_of_le hlen, chunksSpec_nil]

theorem chunkSink_spec (c : Nat) (hc : 0 < c) :
    ∀ (l : Str) (cur : Str) (done : List Str), cur.length < c →
      chunkSinkClose (chunkSinkWrite c ⟨cur, done⟩ l) =
        ⟨[], done ++ chunksSpec c (cur ++ l)⟩ := by
  intro l
  induction l with
  | nil =>
      intro cur done hcur
      by_cases hcurnil : cur = []
      · subst hcurnil
        simp [chunkSinkWrite, chunkSinkClose, chunkSinkEndChunk, chunksSpec_nil]
      · have : chunksSpec c (cur ++ []) = [cur] := by
          rw [List.append_nil]
          exact chunksSpec_small c hc cur hcurnil (Nat.le_of_lt hcur)
        rw [this]
        simp only [chunkSinkWrite, List.foldl_nil, chunkSinkClose,
          chunkSinkEndChunk]
        rw [if_neg (by simpa using hcurnil)]
  | cons b rest ih =>
      intro cur done hcur
      show chunkSinkClose
          (chunkSinkWrite c (chunkSinkWrite1 c ⟨cur, done⟩ b) rest) = _
      by_cases hfull : (cur ++ [b]).length = c
      · have h1 : chunkSinkWrite1 c ⟨cur, done⟩ b =
            ⟨[], done ++ [cur ++ [b]]⟩ := by
          simp only [chunkSinkWrite1, chunkSinkEndChunk]
          rw [if_pos hfull, if_neg (by simp)]
        rw [h1, ih [] (done ++ [cur ++ [b]]) hc]
        have hsplit : cur ++ b :: rest = (cur ++ [b]) ++ rest := by simp
        have hstep : chunksSpec c (cur ++ b :: rest) =
            (cur ++ [b]) :: chunksSpec c rest := by
          rw [hsplit, chunksSpec_step c hc _ (by simp),
            List.take_left' hfull, List.drop_left' hfull]
        rw [hstep]
        simp
      · have hlt : (cur ++ [b]).length < c := by
          simp only [List.length_append, List.length_singleton] at hfull ⊢
          omega
        have h1 : chunkSinkWrite1 c ⟨cur, done⟩ b = ⟨cur ++ [b], done⟩ := by
          simp only [chunkSinkWrite1]
          rw [if_neg hfull]
        rw [h1, ih (cur ++ [b]) done hlt]
        simp

/-- `ChunkSink` windows are the canonical 64-KiB partition. -/
theorem chunkWindows_eq (content : Str) :
    chunkWindows content = chunksSpec kBlockSize content := by
  have h := chunkSink_spec kBlockSize (by decide) content [] []
    (by decide)
  simp only [chunkWindows, chunkSinkInit]
  rw [h]
  simp

theorem chunksSpecF_length (c : Nat) (hc : 0 < c) :
    ∀ f (l : Str), l.length ≤ f →
      (chunksSpecF c f l).length = (l.length + c - 1) / c := by
  have hzero : (c - 1) / c = 0 := Nat.div_eq_of_lt (by omega)
  intro f
  induction f with
  | zero =>
      intro l h1
      have hl : l = [] := List.eq_nil_of_length_eq_zero (Nat.le_zero.mp h1)
      subst hl
      simp [chunksSpecF_nil, hzero]
  | succ f ih =>
      intro l h1
      cases l with
      | nil => simp [chunksSpecF_nil, hzero]
      | cons a t =>
          show ((a :: t).take c :: chunksSpecF c f ((a :: t).drop c)).length = _
          have hlen : ((a :: t).drop c).length = t.length + 1 - c := by
            simp [List.length_drop]
          have h1' : t.length + 1 ≤ f + 1 := by simpa using h1
          have hd : ((a :: t).drop c).length ≤ f := by rw [hlen]; omega
          rw [List.length_cons, ih _ hd, hlen, List.length_cons]
          have er : t.length + 1 + c - 1 = (t.length + 1 - 1) + c := by omega
          rw [er, Nat.add_div_right _ hc]
          by_cases hsmall : t.length + 1 ≤ c
          · have e1 : t.length + 1 - c + c - 1 = c - 1 := by omega
            have e2 : (t.length + 1 - 1) / c = 0 :=
              Nat.div_eq_of_lt (by omega)
            rw [e1, hzero, e2]
          · have e1 : t.length + 1 - c + c - 1 = t.length + 1 - 1 := by omega
            rw [e1]

theorem chunksSpec_length (c : Nat) (hc : 0 < c) (l : Str) :
    (chunksSpec c l).length = (l.length + c - 1) / c :=
  chunksSpecF_length c hc l.length l (Nat.le_refl _)

theorem chunksSpecF_getElem (c : Nat) (hc : 0 < c) :
    ∀ f (l : Str), l.length ≤ f → ∀ (i : Nat)
      (h : i < (chunksSpecF c f l).length),
      (chunksSpecF c f l).get ⟨i, h⟩ = (l.drop (i * c)).take c := by
  intro f
  induction f with
  | zero =>
      intro l hf i h
      have hl : l = [] := List.eq_nil_of_length_eq_zero (Nat.le_zero.mp hf)
      subst hl
      simp [chunksSpecF_nil] at h
  | succ f ih =>
      intro l hf i h
      cases l with
      | nil => simp [chunksSpecF_nil] at h
      | cons a t =>
          have hstep : chunksSpecF c (f + 1) (a :: t) =
              (a :: t).take c :: chunksSpecF c f ((a :: t).drop c) := rfl
          have hlen : ((a :: t).drop c).length = t.length + 1 - c := by
            simp [List.length_drop]
          have hf' : t.length + 1 ≤ f + 1 := by simpa using hf
          have hd : ((a :: t).drop c).length ≤ f := by rw [hlen]; omega
          cases i with
          | zero => simp [hstep]
          | succ i =>
              have h2 : i < (chunksSpecF c f ((a :: t).drop c)).length := by
                have := h
                rw [hstep] at this
                simpa using this
              have hget : (chunksSpecF c (f + 1) (a :: t)).get ⟨i + 1, h⟩ =
                  (chunksSpecF c f ((a :: t).drop c)).get ⟨i, h2⟩ := by
                simp [hstep]
              rw [hget, ih _ hd i h2, List.drop_drop]
              congr 2
              ring

theorem chunksSpec_getElem (c : Nat) (hc : 0 < c) (l : Str) (i : Nat)
    (h : i < (chunksSpec c l).length) :
    (chunksSpec c l).get ⟨i, h⟩ = (l.drop (i * c)).take c :=
  chunksSpecF_getElem c hc l.length l (Nat.le_refl _) i h

/-!
## Helper lemmas: blocks produced by `WriteZIPFileEntry`
-/

theorem deflateFold_blocks_sha (E : Ext) (M : DeflateModel) :
    ∀ (windows : List Str) (st : DeflateFoldSt M),
      ((windows.foldl (deflateChunkStep E M) st).blocks).map ZIPBlock.sha256 =
        st.blocks.map ZIPBlock.sha256 ++
          windows.map (fun w => E.sha256 (strBytes w)) := by
  intro windows
  induction windows with
  | nil => intro st; simp
  | cons w ws ih =>
      intro st
      rw [List.foldl_cons, ih]
      have hstep : ((deflateChunkStep E M st w).blocks).map ZIPBlock.sha256 =
          st.blocks.map ZIPBlock.sha256 ++ [E.sha256 (strBytes w)] := by
        simp [deflateChunkStep]
      rw [hstep]
      simp

/-- The SHA-256 components of the blocks of any written entry are the
hashes of the canonical 64-KiB windows of the uncompressed content
(both the store path and the deflate path). -/
theorem writeZIPFileEntry_blocks_sha (E : Ext) (M : DeflateModel)
    (offset : Nat) (name : Str) (level : Nat) (content : Str) :
    ((writeZIPFileEntry E M offset name level content).1.blocks).map
        ZIPBlock.sha256 =
      (chunksSpec kBlockSize content).map (fun w => E.sha256 (strBytes w)) := by
  by_cases hl : (if isAPPXFile name then 0 else level) = 0
  · simp only [writeZIPFileEntry, hl, if_pos, mkZIPFileEntry, List.map_map,
      chunkWindows_eq]
    rfl
  · simp only [writeZIPFileEntry, mkZIPFileEntry]
    rw [if_neg hl, deflateFold_blocks_sha, chunkWindows_eq]
    simp

theorem writeZIPFileEntry_blocks_length (E : Ext) (M : DeflateModel)
    (offset : Nat) (name : Str) (level : Nat) (content : Str) :
    (writeZIPFileEntry E M offset name level content).1.blocks.length =
      (content.length + kBlockSize - 1) / kBlockSize := by
  have h := congrArg List.length
    (writeZIPFileEntry_blocks_sha E M offset name level content)
  simpa [chunksSpec_length kBlockSize (by decide)] using h

theorem writeZIPFileEntry_store_of_appx (E : Ext) (M : DeflateModel)
    (offset : Nat) (name : Str) (level : Nat) (content : Str)
    (h : isAPPXFile name = true) :
    (writeZIPFileEntry E M offset name level content).1.compressionType =
        .Store ∧
      (writeZIPFileEntry E M offset name level content).1.compressedSize =
        (writeZIPFileEntry E M offset name level content).1.uncompressedSize
    := by
  have h0 : (if isAPPXFile name then 0 else level) = 0 := by rw [h]; rfl
  simp [writeZIPFileEntry, h0, mkZIPFileEntry]


/-!
## Claim C5 — blocks partition the uncompressed content
-/

/-- C5: for every entry written by `WriteZIPFileEntry` (store or
deflate path), the block list partitions the uncompressed content into
consecutive 64-KiB windows — the number of blocks is
`⌈size / 65536⌉` and the `i`-th block's SHA-256 is the digest of the
`i`-th window — and in particular a 65536-byte input produces one
block while a 65537-byte input produces two, the second covering one
byte. -/
theorem claim_C5_blocks (E : Ext) (M : DeflateModel) (offset : Nat)
    (name : Str) (level : Nat) (content : Str) :
    ((writeZIPFileEntry E M offset name level content).1.blocks.length =
        (content.length + kBlockSize - 1) / kBlockSize) ∧
    (∀ i (h : i <
        (writeZIPFileEntry E M offset name level content).1.blocks.length),
      ((writeZIPFileEntry E M offset name level content).1.blocks.get
          ⟨i, h⟩).sha256 =
        E.sha256 (strBytes ((content.drop (i * kBlockSize)).take
          kBlockSize))) ∧
    (content.length = kBlockSize →
      (writeZIPFileEntry E M offset name level content).1.blocks.length = 1) ∧
    (content.length = kBlockSize + 1 →
      (writeZIPFileEntry E M offset name level content).1.blocks.length = 2 ∧
      ((content.drop (1 * kBlockSize)).take kBlockSize).length = 1) := by
  have hlen := writeZIPFileEntry_blocks_length E M offset name level content
  have hsha := writeZIPFileEntry_blocks_sha E M offset name level content
  refine ⟨hlen, ?_, ?_, ?_⟩
  · intro i h
    have h2 : i < (chunksSpec kBlockSize content).length := by
      rw [chunksSpec_length kBlockSize (by decide)]
      rw [hlen] at h
      exact h
    have hopt := congrArg (fun l => l.get? i) hsha
    simp only [List.get?_map] at hopt
    rw [List.get?_eq_get h, List.get?_eq_get h2] at hopt
    have := Option.some.inj hopt
    rw [this, chunksSpec_getElem kBlockSize (by decide) content i h2]
  · intro hc
    rw [hlen, hc]
    decide
  · intro hc
    refine ⟨by rw [hlen, hc]; decide, ?_⟩
    simp only [List.length_take, List.length_drop, hc]
    decide

/-- Witness for C5: a two-byte input yields one block whose hash is the
digest of the only window, and a 65536-byte input yields exactly one
block. -/
theorem claim_C5_blocks_witness :
    (0 < (writeZIPFileEntry sampleExt sampleDeflate 0 "a.txt".toList 0
        "ab".toList).1.blocks.length) ∧
    ((writeZIPFileEntry sampleExt sampleDeflate 0 "a.txt".toList 0
        "ab".toList).1.blocks.get ⟨0, by decide⟩).sha256 =
      sampleExt.sha256 (strBytes (("ab".toList.drop (0 * kBlockSize)).take
        kBlockSize)) ∧
    (writeZIPFileEntry sampleExt sampleDeflate 0 "big.bin".toList 9
        (List.replicate kBlockSize 'a')).1.blocks.length = 1 ∧
    (writeZIPFileEntry sampleExt sampleDeflate 0 "big.bin".toList 9
        (List.replicate (kBlockSize + 1) 'a')).1.blocks.length = 2 :=
  ⟨by decide,
   (claim_C5_blocks sampleExt sampleDeflate 0 "a.txt".toList 0
      "ab".toList).2.1 0 (by decide),
   (claim_C5_blocks sampleExt sampleDeflate 0 "big.bin".toList 9
      (List.replicate kBlockSize 'a')).2.2.1 (by simp),
   ((claim_C5_blocks sampleExt sampleDeflate 0 "big.bin".toList 9
      (List.replicate (kBlockSize + 1) 'a')).2.2.2 (by simp)).1⟩

/-!
## Claim C7 — `.appx` entries are stored uncompressed
-/

/-- C7 counterexample: the archive name `.appx` ends in `.appx`, yet
with compression level 9 the entry is written with the Deflate method
(`_IsAPPXFile` demands a name *strictly longer* than the suffix), so
the claim as stated fails at this input. -/
theorem claim_C7_counterexample :
    (writeZIPFileEntry sampleExt sampleDeflate 0 ".appx".toList 9
        "ab".toList).1.compressionType = ZIPCompressionType.Deflate ∧
    isAPPXFile ".appx".toList = false := by
  exact ⟨by decide, by decide⟩

/-- C7 (amended): every entry whose archive name is strictly longer
than `.appx` and ends in `.appx` is written with the Store method and
equal compressed and uncompressed sizes, whatever compression level the
caller requested. -/
theorem claim_C7_appx_stored (E : Ext) (M : DeflateModel) (offset : Nat)
    (name : Str) (level : Nat) (content : Str) :
    (isAPPXFile name = true →
      (writeZIPFileEntry E M offset name level content).1.compressionType =
          ZIPCompressionType.Store ∧
      (writeZIPFileEntry E M offset name level content).1.compressedSize =
        (writeZIPFileEntry E M offset name level content).1.uncompressedSize)
    ∧
    (5 < name.length → ".appx".toList.isSuffixOf name = true →
      isAPPXFile name = true) := by
  constructor
  · intro h
    exact writeZIPFileEntry_store_of_appx E M offset name level content h
  · intro h1 h2
    have h5 : (".appx".toList).length = 5 := by decide
    show (decide ((".appx".toList).length < name.length) &&
      ".appx".toList.isSuffixOf name) = true
    rw [h2, Bool.and_true, h5]
    exact decide_eq_true h1

/-- Witness for C7: `inner.appx` at level 9 is stored with equal
sizes. -/
theorem claim_C7_appx_stored_witness :
    isAPPXFile "inner.appx".toList = true ∧
    (writeZIPFileEntry sampleExt sampleDeflate 0 "inner.appx".toList 9
        "hello".toList).1.compressionType = ZIPCompressionType.Store ∧
    (writeZIPFileEntry sampleExt sampleDeflate 0 "inner.appx".toList 9
        "hello".toList).1.compressedSize =
      (writeZIPFileEntry sampleExt sampleDeflate 0 "inner.appx".toList 9
        "hello".toList).1.uncompressedSize :=
  ⟨by decide,
   (claim_C7_appx_stored sampleExt sampleDeflate 0 "inner.appx".toList 9
      "hello".toList).1 (by decide)⟩

/-!
## Claim C4 — name sanitisation
-/

/-- C4 counterexample: a NUL byte lies outside the whitelist
`[A-Za-z0-9-._~/]`, yet it is *not* rewritten to `%00`:
`std::strchr` also matches the terminating NUL of the whitelist string,
so the byte is copied verbatim. -/
theorem claim_C4_counterexample :
    sanitizedFileName [Char.ofNat 0] ≠ "%00".toList ∧
    sanitizedFileName [Char.ofNat 0] = [Char.ofNat 0] := by
  exact ⟨by decide, by decide⟩

/-- C4 (amended): for byte-valued names, sanitisation percent-encodes
(uppercase `%XX`) every byte outside the whitelist *except* the NUL
byte, which `strchr` treats as a whitelist hit and copies verbatim; the
literal name `[Content_Types].xml` is kept verbatim.  `specSanitizedName`
is the reference formulation of exactly that sentence. -/
theorem claim_C4_sanitize (name : Str) (h : ∀ c ∈ name, c.toNat < 256) :
    sanitizedFileName name = specSanitizedName name := by
  unfold sanitizedFileName specSanitizedName
  by_cases hct : name = contentTypesFileName
  · rw [if_pos hct, if_pos hct]
  · rw [if_neg hct, if_neg hct]
    clear hct
    induction name with
    | nil => rfl
    | cons c rest ih =>
        have hc : c.toNat < 256 := h c (List.mem_cons_self c rest)
        have hrest : ∀ x ∈ rest, x.toNat < 256 := fun x hx =>
          h x (List.mem_cons_of_mem c hx)
        show (if strchrZipWhitelist c then [c] else percentEncodeChar c) ++
            sanitizeLoop rest = specSanitizeChar c ++ rest.flatMap specSanitizeChar
        rw [ih hrest]
        congr 1
        by_cases hw : c ∈ zipWhitelist ∨ c = Char.ofNat 0
        · have hb : strchrZipWhitelist c = true := by
            unfold strchrZipWhitelist
            cases hw with
            | inl hmem =>
                have : zipWhitelist.contains c = true :=
                  List.elem_iff.mpr hmem
                rw [this, Bool.true_or]
            | inr heq =>
                have : (c == Char.ofNat 0) = true := beq_iff_eq.mpr heq
                rw [this, Bool.or_true]
          rw [hb]
          show [c] = specSanitizeChar c
          unfold specSanitizeChar
          rw [if_pos hw]
        · have hb : strchrZipWhitelist c = false := by
            unfold strchrZipWhitelist
            push_neg at hw
            have h1 : zipWhitelist.contains c = false := by
              rw [Bool.eq_false_iff]
              intro hcon
              exact hw.1 (List.elem_iff.mp hcon)
            have h2 : (c == Char.ofNat 0) = false := by
              rw [Bool.eq_false_iff]
              intro hbeq
              exact hw.2 (beq_iff_eq.mp hbeq)
            rw [h1, h2]
            rfl
          rw [hb]
          show percentEncodeChar c = specSanitizeChar c
          unfold specSanitizeChar percentEncodeChar
          rw [if_neg hw, Nat.mod_eq_of_lt hc]

/-- Witness for C4: the space in `a b.txt` becomes `%20`, and the
content-types name is untouched. -/
theorem claim_C4_sanitize_witness :
    sanitizedFileName "a b.txt".toList = specSanitizedName "a b.txt".toList ∧
    sanitizedFileName "a b.txt".toList = "a%20b.txt".toList ∧
    sanitizedFileName contentTypesFileName = contentTypesFileName :=
  ⟨claim_C4_sanitize "a b.txt".toList (by decide), by decide, by decide⟩

/-!
## Claim C10 — the CRC32 sink's size guard
-/

/-- C10: `CRC32Sink::Write` never throws its range error — the guard
compares `sizeof(size)` (8) with `UINT_MAX`, which is always false —
and the buffer length is truncated modulo `2^32` by the cast before
reaching zlib, so a buffer of `2^32` bytes or more has bytes silently
dropped. -/
theorem claim_C10_crc_guard (E : Ext) (crc : Nat) (bytes : Bytes) :
    crc32SinkWrite E crc bytes =
      Except.ok (E.crc32upd crc (bytes.take (bytes.length % 2 ^ 32))) ∧
    ¬ sizeofSizeT > uintMax ∧
    (2 ^ 32 ≤ bytes.length →
      (bytes.take (bytes.length % 2 ^ 32)).length < bytes.length) := by
  refine ⟨?_, by decide, ?_⟩
  · unfold crc32SinkWrite
    rw [if_neg (by decide)]
  · intro h
    rw [List.length_take]
    have hm : bytes.length % 2 ^ 32 < 2 ^ 32 :=
      Nat.mod_lt _ (by decide)
    omega

/-- Witness for C10: a concrete small write is passed through whole,
and a `2^32`-byte buffer loses bytes. -/
theorem claim_C10_crc_guard_witness :
    crc32SinkWrite sampleExt 0 [1, 2, 3] =
      Except.ok (sampleExt.crc32upd 0
        ([1, 2, 3].take ([1, 2, 3].length % 2 ^ 32))) ∧
    2 ^ 32 ≤ (List.replicate (2 ^ 32) 0).length ∧
    ((List.replicate (2 ^ 32) 0).take
        ((List.replicate (2 ^ 32) 0).length % 2 ^ 32)).length <
      (List.replicate (2 ^ 32) 0).length :=
  ⟨(claim_C10_crc_guard sampleExt 0 [1, 2, 3]).1,
   by rw [List.length_replicate],
   (claim_C10_crc_guard sampleExt 0 (List.replicate (2 ^ 32) 0)).2.2
     (by rw [List.length_replicate])⟩

/-!
## Claim C6 — bundle-manifest offset patching
-/

theorem natToDecimalAux_no_dash :
    ∀ fuel n acc, ('-') ∉ acc → ('-') ∉ natToDecimalAux fuel n acc := by
  have hall : ∀ m, m < 10 → ¬ (('-') = Char.ofNat (48 + m)) := by decide
  have hdig : ∀ n acc, ('-') ∉ acc → ('-') ∉ (decDigit n :: acc) := by
    intro n acc hacc hmem
    rcases List.mem_cons.mp hmem with heq | hmem2
    · exact hall (n % 10) (Nat.mod_lt _ (by decide))
        (by simpa [decDigit] using heq)
    · exact hacc hmem2
  intro fuel
  induction fuel with
  | zero => intro n acc hacc; exact hdig n acc hacc
  | succ fuel ih =>
      intro n acc hacc
      show ('-') ∉ (if n < 10 then decDigit n :: acc
        else natToDecimalAux fuel (n / 10) (decDigit (n % 10) :: acc))
      split
      · exact hdig n acc hacc
      · exact ih (n / 10) _ (hdig (n % 10) acc hacc)

theorem natToDecimal_no_dash (n : Nat) : ('-') ∉ natToDecimal n :=
  natToDecimalAux_no_dash n n [] (by simp)

theorem replLoop_none (pat repl text : Str) (pos : Nat)
    (hfind : findSub pat text pos = none) :
    replLoop pat repl text pos = text := by
  rw [replLoop, hfind]

theorem replLoop_found (pat repl text : Str) (pos i : Nat)
    (hfind : findSub pat text pos = some i)
    (hdec : (text.take i ++ repl ++ text.drop (i + pat.length)).count ('-') <
      text.count ('-')) :
    replLoop pat repl text pos =
      replLoop pat repl
        (text.take i ++ repl ++ text.drop (i + pat.length)) i := by
  rw [replLoop, hfind]
  exact dif_pos hdec

/-- One clean replacement step: when the search finds the occurrence
sitting between `p` and `q`, the loop substitutes `repl` for it and
resumes at the start of the substitution. -/
theorem replLoop_clean_step (pat repl p q : Str) (pos : Nat)
    (hpat : ('-') ∈ pat) (hrepl : ('-') ∉ repl)
    (hfind : findSub pat (p ++ (pat ++ q)) pos = some p.length) :
    replLoop pat repl (p ++ (pat ++ q)) pos =
      replLoop pat repl (p ++ (repl ++ q)) p.length := by
  have htake : (p ++ (pat ++ q)).take p.length = p := List.take_left p _
  have hdrop : (p ++ (pat ++ q)).drop (p.length + pat.length) = q := by
    rw [← List.append_assoc]
    exact List.drop_left' (by rw [List.length_append])
  have hdec : ((p ++ (pat ++ q)).take p.length ++ repl ++
      (p ++ (pat ++ q)).drop (p.length + pat.length)).count ('-') <
      (p ++ (pat ++ q)).count ('-') := by
    rw [htake, hdrop]
    simp only [List.count_append]
    have h1 : 0 < pat.count ('-') := List.count_pos_iff_mem.mpr hpat
    have h2 : repl.count ('-') = 0 := by
      rw [List.count_eq_zero]
      exact hrepl
    omega
  rw [replLoop_found pat repl _ pos p.length hfind hdec, htake, hdrop,
    List.append_assoc]

/-- C6: when the bundle-manifest entry is written, for every previously
written caller entry, every occurrence of the literal
`<fileName>-offset` in the manifest text is replaced by the decimal
representation of `fileRecordHeaderOffset + FileRecordHeaderSize`
(with `FileRecordHeaderSize = 30 + sanitised-name length`), i.e. the
offset where the entry's data begins.  The search hypotheses pin down
where the (two) occurrences sit, in the order the loop finds them. -/
theorem claim_C6_manifest_offsets (entry : ZIPFileEntry) (a b c2 : Str)
    (h1 : findSub (offsetTemplateName entry.fileName)
        (a ++ offsetTemplateName entry.fileName ++ b ++
          offsetTemplateName entry.fileName ++ c2) 0 = some a.length)
    (h2 : findSub (offsetTemplateName entry.fileName)
        (a ++ natToDecimal (entry.fileRecordHeaderOffset +
            entry.fileRecordHeaderSize) ++ b ++
          offsetTemplateName entry.fileName ++ c2) a.length =
        some ((a ++ natToDecimal (entry.fileRecordHeaderOffset +
            entry.fileRecordHeaderSize) ++ b).length))
    (h3 : findSub (offsetTemplateName entry.fileName)
        (a ++ natToDecimal (entry.fileRecordHeaderOffset +
            entry.fileRecordHeaderSize) ++ b ++
          natToDecimal (entry.fileRecordHeaderOffset +
            entry.fileRecordHeaderSize) ++ c2)
        ((a ++ natToDecimal (entry.fileRecordHeaderOffset +
            entry.fileRecordHeaderSize) ++ b).length) = none) :
    manifestContentsAfterPopulatingOffsets
        (a ++ offsetTemplateName entry.fileName ++ b ++
          offsetTemplateName entry.fileName ++ c2) [entry] =
      a ++ natToDecimal (entry.fileRecordHeaderOffset +
          entry.fileRecordHeaderSize) ++ b ++
        natToDecimal (entry.fileRecordHeaderOffset +
          entry.fileRecordHeaderSize) ++ c2 ∧
    entry.fileRecordHeaderSize = 30 + entry.sanitizedFileName.length := by
  set pat := offsetTemplateName entry.fileName with hpatdef
  set r := natToDecimal (entry.fileRecordHeaderOffset +
    entry.fileRecordHeaderSize) with hrdef
  constructor
  · have hpat : ('-') ∈ pat := by
      rw [hpatdef]
      unfold offsetTemplateName
      exact List.mem_append.mpr (Or.inr (by decide))
    have hrepl : ('-') ∉ r := by
      rw [hrdef]
      exact natToDecimal_no_dash _
    show replLoop pat r (a ++ pat ++ b ++ pat ++ c2) 0 = _
    have e1 : a ++ pat ++ b ++ pat ++ c2 =
        a ++ (pat ++ (b ++ (pat ++ c2))) := by
      simp [List.append_assoc]
    rw [e1] at h1
    rw [e1, replLoop_clean_step pat r a (b ++ (pat ++ c2)) 0 hpat hrepl h1]
    have e2 : a ++ (r ++ (b ++ (pat ++ c2))) =
        (a ++ (r ++ b)) ++ (pat ++ c2) := by
      simp [List.append_assoc]
    have h2' : findSub pat ((a ++ (r ++ b)) ++ (pat ++ c2)) a.length =
        some ((a ++ (r ++ b)).length) := by
      have ea : (a ++ (r ++ b)) ++ (pat ++ c2) = a ++ r ++ b ++ pat ++ c2 :=
        by simp [List.append_assoc]
      have eb : (a ++ (r ++ b)).length = (a ++ r ++ b).length := by
        simp [List.append_assoc]
      rw [ea, eb]
      exact h2
    rw [e2, replLoop_clean_step pat r (a ++ (r ++ b)) c2 a.length hpat hrepl
      h2']
    have h3' : findSub pat ((a ++ (r ++ b)) ++ (r ++ c2))
        ((a ++ (r ++ b)).length) = none := by
      have ea : (a ++ (r ++ b)) ++ (r ++ c2) = a ++ r ++ b ++ r ++ c2 := by
        simp [List.append_assoc]
      have eb : (a ++ (r ++ b)).length = (a ++ r ++ b).length := by
        simp [List.append_assoc]
      rw [ea, eb]
      exact h3
    rw [replLoop_none _ _ _ _ h3']
    simp [List.append_assoc]
  · rfl

/-- Witness for C6: an entry `inner.appx` written at archive offset 0
has its data at `0 + 30 + 10 = 40`, and both placeholder occurrences
are replaced by `40`. -/
theorem claim_C6_manifest_offsets_witness :
    manifestContentsAfterPopulatingOffsets
        ("A ".toList ++ offsetTemplateName "inner.appx".toList ++
          " B ".toList ++ offsetTemplateName "inner.appx".toList ++
          " C".toList)
        [mkStoredZIPFileEntry "inner.appx".toList 3 0 0 [] zeroHash32] =
      "A 40 B 40 C".toList := by
  have h := (claim_C6_manifest_offsets
    (mkStoredZIPFileEntry "inner.appx".toList 3 0 0 [] zeroHash32)
    "A ".toList " B ".toList " C".toList
    (by decide) (by decide) (by decide)).1
  exact h.trans (by decide)

/-!
## Claim C3 — block-map `Name` attributes
-/

/-- C3 counterexample: for the archive name `a&b.txt` (an XML-special
`&`), no `<File>` element is produced at all — `XMLEncodeString` throws
instead of escaping, so the block-map generation fails. -/
theorem claim_C3_counterexample :
    blockMapXml sampleExt
[(writeZIPFileEntry sampleExt sampleDeflate 0 "a&b.txt".toList 0
        "z".toList).1] false = none ∧
    bmNameAttr (writeZIPFileEntry sampleExt sampleDeflate 0 "a&b.txt".toList 0
      "z".toList).1 = none := by
  exact ⟨by decide, by decide⟩

/-- C3 (amended): `XMLEncodeString` never rewrites anything — whenever
it succeeds it returns its argument unchanged — so a `<File>` element's
`Name` attribute is exactly the slash-to-backslash-rewritten archive
name, and it is produced only when every character of that rewritten
name lies in the whitelist `[A-Za-z0-9.\[\]() _\-+\\%]`; names with
other characters (such as `&` or `"`) abort packaging with an error. -/
theorem claim_C3_blockmap_names (s t : Str) (e : ZIPFileEntry) :
    (xmlEncodeString s = some t → t = s) ∧
    ((slashToBackslash e.fileName).all
        (fun c => xmlWhitelist.contains c) = true →
      bmNameAttr e = some (slashToBackslash e.fileName)) ∧
    ((slashToBackslash e.fileName).all
        (fun c => xmlWhitelist.contains c) = false →
      bmNameAttr e = none) := by
  refine ⟨?_, ?_, ?_⟩
  · intro h
    unfold xmlEncodeString at h
    split at h
    · exact (Option.some.inj h).symm
    · cases h
  · intro hall
    unfold bmNameAttr xmlEncodeString
    rw [if_pos hall]
  · intro hall
    unfold bmNameAttr xmlEncodeString
    rw [if_neg (by rw [hall]; exact Bool.false_ne_true)]

/-- Witness for C3: `assets/logo.png` is rewritten to
`assets\logo.png` and kept verbatim. -/
theorem claim_C3_blockmap_names_witness :
    bmNameAttr (mkStoredZIPFileEntry "assets/logo.png".toList 1 0 0 []
        zeroHash32) =
      some (slashToBackslash "assets/logo.png".toList) ∧
    slashToBackslash "assets/logo.png".toList = "assets\\logo.png".toList :=
  ⟨(claim_C3_blockmap_names [] []
      (mkStoredZIPFileEntry "assets/logo.png".toList 1 0 0 []
        zeroHash32)).2.1 (by decide),
   by decide⟩

/-!
## The content-types generation always fails in this source

Every content type in `sKnownContentTypes` — and the fallback
`application/octet-stream` — contains a `/`, but the `XMLEncodeString`
whitelist has no `/`, so the first `<Default>` or `<Override>` element
of the per-entry loop throws and `WriteAppx` never completes.
-/

theorem xmlEncode_contentType_none (isBundle : Bool) (ext : Str) :
    xmlEncodeString ((knownContentType isBundle ext).getD
      kDefaultContentType) = none := by
  unfold knownContentType
  by_cases h1 : ext = "appx".toList
  · rw [if_pos h1]
    decide
  rw [if_neg h1]
  by_cases h2 : ext = "dll".toList
  · rw [if_pos h2]
    decide
  rw [if_neg h2]
  by_cases h3 : ext = "exe".toList
  · rw [if_pos h3]
    decide
  rw [if_neg h3]
  by_cases h4 : ext = "png".toList
  · rw [if_pos h4]
    decide
  rw [if_neg h4]
  by_cases h5 : ext = "xml".toList
  · rw [if_pos h5]
    cases isBundle with
    | true => decide
    | false => decide
  · rw [if_neg h5]
    decide

theorem contentTypesLoop_head_none (isBundle : Bool) (e : ZIPFileEntry)
    (rest : List ZIPFileEntry) :
    contentTypesLoop isBundle (e :: rest) [] = none := by
  rw [contentTypesLoop]
  split
  · rw [if_neg (List.not_mem_nil _)]
    simp only [xmlEncode_contentType_none]
    cases xmlEncodeString (e.sanitizedFileName.drop
      (rfindPlusOne '.' e.sanitizedFileName)) <;> rfl
  · simp only [show xmlEncodeString kDefaultContentType = none from by decide]
    cases xmlEncodeString e.sanitizedFileName <;> rfl

theorem writeContentTypes_append_none (E : Ext) (off : Nat) (isBundle : Bool)
    (entries : List ZIPFileEntry) (x : ZIPFileEntry) :
    writeContentTypesZIPFileEntry E off isBundle (entries ++ [x]) = none := by
  unfold writeContentTypesZIPFileEntry contentTypesElemsXml
  have h : contentTypesLoop isBundle (entries ++ [x]) [] = none := by
    cases entries with
    | nil => exact contentTypesLoop_head_none isBundle x []
    | cons e t =>
        show contentTypesLoop isBundle (e :: (t ++ [x])) [] = none
        exact contentTypesLoop_head_none isBundle e (t ++ [x])
  rw [h]
  rfl

/-- In this source no invocation of `WriteAppx` completes: the
content-types element loop runs over at least the synthesised
`AppxBlockMap.xml` entry, and its very first element aborts because
every content type contains `/`, which `XMLEncodeString` rejects. -/
theorem writeAppxSynthPhase_none (E : Ext) (M : DeflateModel)
    (signer : Option (Bytes → Bytes)) (isBundle : Bool) (stB : PayloadSt) :
    writeAppxSynthPhase E M signer isBundle stB = none := by
  unfold writeAppxSynthPhase
  cases hbm : writeAppxBlockMapZIPFileEntry E stB.sink.offset stB.entries
    isBundle with
  | none => rfl
  | some p =>
      cases p with
      | mk bmE bmRec =>
          show ((writeContentTypesZIPFileEntry E
              (phase1Write stB.sink bmRec).offset isBundle
              (stB.entries ++ [bmE])).bind _) = none
          rw [writeContentTypes_append_none]
          rfl

theorem writeAppx_none (E : Ext) (M : DeflateModel) (inputs : List AppxInput)
    (signer : Option (Bytes → Bytes)) (compressionLevel : Nat)
    (isBundle : Bool) :
    writeAppx E M inputs signer compressionLevel isBundle = none :=
  writeAppxSynthPhase_none E M signer isBundle
    (writeAppxPayloadPhase E M inputs compressionLevel isBundle)

/-!
## Claim C1 — `<Default>` elements of `[Content_Types].xml`
-/

/-- C1 counterexample: for the input `{hello.txt, image.png}` the
packager produces no `[Content_Types].xml` at all — let alone one with
exactly two `<Default>` elements — because the first `<Default>`
element's content type contains `/`, which `XMLEncodeString`
rejects, so `WriteAppx` aborts. -/
theorem claim_C1_counterexample :
    writeAppx sampleExt sampleDeflate
      [⟨"hello.txt".toList, "01234567".toList⟩,
       ⟨"image.png".toList, "PNG".toList⟩] none 9 false = none :=
  writeAppx_none sampleExt sampleDeflate _ none 9 false

/-- C1 (amended): no run of `WriteAppx` emits any `<Default>` element:
the content-types loop (which would also range over the synthesised
`AppxBlockMap.xml` entry, not only caller-supplied ones) aborts on its
first element because every content type — the known ones and the
fallback `application/octet-stream` — contains `/`, which the
`XMLEncodeString` whitelist rejects, so every packaging run fails
before `[Content_Types].xml` is written. -/
theorem claim_C1_content_types (E : Ext) (M : DeflateModel)
    (inputs : List AppxInput) (signer : Option (Bytes → Bytes))
    (compressionLevel : Nat) (isBundle : Bool) (e : ZIPFileEntry)
    (rest : List ZIPFileEntry) :
    writeAppx E M inputs signer compressionLevel isBundle = none ∧
    contentTypesLoop isBundle (e :: rest) [] = none ∧
    xmlEncodeString kDefaultContentType = none :=
  ⟨writeAppx_none E M inputs signer compressionLevel isBundle,
   contentTypesLoop_head_none isBundle e rest,
   by decide⟩

/-!
## Claim C2 — the `axci` digest
-/

/-- C2: the digest set assembled by `WriteAppx` always carries the
zero-filled `axci` of the default `SHA256Hash` constructor — no code
anywhere assigns it, whether or not `AppxMetadata/CodeIntegrity.cat`
is among the inputs — and the serialised blob's final 32 bytes (the
`axci` slot) are zero; moreover, in this source a run with the
code-integrity catalogue present never reaches the signer at all. -/
theorem claim_C2_axci_zero (E : Ext) (axbmHash axctHash axpcAcc
    axcdBytes : Bytes)
    (hpc : (E.sha256 axpcAcc).length = 32)
    (hcd : (E.sha256 axcdBytes).length = 32)
    (hct : axctHash.length = 32) (hbm : axbmHash.length = 32) :
    (assembleDigests E axbmHash axctHash axpcAcc axcdBytes).axci =
      zeroHash32 ∧
    (digestsBlob (assembleDigests E axbmHash axctHash axpcAcc
        axcdBytes)).drop 152 = zeroHash32 ∧
    writeAppx sampleExt sampleDeflate
      [⟨"AppxMetadata/CodeIntegrity.cat".toList, "catbytes".toList⟩]
      (some (fun _ => [])) 0 false = none := by
  refine ⟨rfl, ?_, writeAppx_none sampleExt sampleDeflate _ _ 0 false⟩
  have hsplit : digestsBlob (assembleDigests E axbmHash axctHash axpcAcc
      axcdBytes) =
      (strBytes "APPX".toList ++
       strBytes "AXPC".toList ++ E.sha256 axpcAcc ++
       strBytes "AXCD".toList ++ E.sha256 axcdBytes ++
       strBytes "AXCT".toList ++ axctHash ++
       strBytes "AXBM".toList ++ axbmHash ++
       strBytes "AXCI".toList) ++ zeroHash32 := by
    simp [digestsBlob, assembleDigests, initDigests, List.append_assoc]
  rw [hsplit]
  refine List.drop_left' ?_
  simp [strBytes, hpc, hcd, hct, hbm]

/-- Witness for C2: the length hypotheses hold for the concrete sample
hash. -/
theorem claim_C2_axci_zero_witness :
    (assembleDigests sampleExt zeroHash32 zeroHash32 [] []).axci =
      zeroHash32 ∧
    (digestsBlob (assembleDigests sampleExt zeroHash32 zeroHash32 []
        [])).drop 152 = zeroHash32 := by
  have h := claim_C2_axci_zero sampleExt zeroHash32 zeroHash32 [] []
    (by decide) (by decide) (by decide) (by decide)
  exact ⟨h.1, h.2.1⟩

/-- C2 divergence exhibit: were the run to assemble its digests with a
code-integrity hash available (here the sample hash of the `.cat`
bytes, 32 one-bytes), the `axci` field would still be the 32 zero
bytes, not that hash. -/
theorem claim_C2_divergence :
    (assembleDigests sampleExt zeroHash32 zeroHash32 [] []).axci ≠
      sampleExt.sha256 (strBytes "catbytes".toList) := by
  decide

/-!
## Claim C8 — the `axpc` digest covers exactly the pre-signature records
-/

theorem bytesConcat_append (xs ys : List Bytes) :
    bytesConcat (xs ++ ys) = bytesConcat xs ++ bytesConcat ys := by
  induction xs with
  | nil => rfl
  | cons x t ih =>
      show x ++ bytesConcat (t ++ ys) = (x ++ bytesConcat t) ++ bytesConcat ys
      rw [ih, List.append_assoc]

/-- The running payload-phase invariant: the `axpc` sink state is the
concatenation of the records written so far, which is also exactly
what has reached the output file. -/
def payloadInv (st : PayloadSt) : Prop :=
  st.sink.axpcAcc = bytesConcat st.records ∧
  st.sink.fileBytes = st.sink.axpcAcc

theorem bytesConcat_singleton (b : Bytes) : bytesConcat [b] = b := by
  show b ++ ([] : Bytes) = b
  exact List.append_nil b

theorem payloadStep_inv (E : Ext) (M : DeflateModel)
    (compressionLevel : Nat) (isBundle : Bool) (st : PayloadSt)
    (input : AppxInput) (h : payloadInv st) :
    payloadInv (payloadStep E M compressionLevel isBundle st input) := by
  unfold payloadStep
  split
  · exact h
  · rcases hw : writeZIPFileEntry E M st.sink.offset input.archiveName
      compressionLevel input.contents with ⟨entry, rec⟩
    refine ⟨?_, ?_⟩
    · show st.sink.axpcAcc ++ rec = bytesConcat (st.records ++ [rec])
      rw [bytesConcat_append, bytesConcat_singleton, h.1]
    · show st.sink.fileBytes ++ rec = st.sink.axpcAcc ++ rec
      rw [h.2]

theorem bundleManifestStep_inv (E : Ext) (M : DeflateModel)
    (compressionLevel : Nat) (stP : PayloadSt) (h : payloadInv stP) :
    payloadInv (bundleManifestStep E M compressionLevel stP) := by
  unfold bundleManifestStep
  rcases hw : writeZIPFileEntry E M stP.sink.offset stP.bundleManifest.1
    compressionLevel (manifestContentsAfterPopulatingOffsets
      stP.bundleManifest.2 stP.entries) with ⟨entry, rec⟩
  simp only [hw]
  refine ⟨?_, ?_⟩
  · show stP.sink.axpcAcc ++ rec = bytesConcat (stP.records ++ [rec])
    rw [bytesConcat_append, bytesConcat_singleton, h.1]
  · show stP.sink.fileBytes ++ rec = stP.sink.axpcAcc ++ rec
    rw [h.2]

theorem payloadFold_inv (E : Ext) (M : DeflateModel)
    (compressionLevel : Nat) (isBundle : Bool) :
    ∀ (inputs : List AppxInput) (st : PayloadSt), payloadInv st →
      payloadInv (inputs.foldl
        (payloadStep E M compressionLevel isBundle) st) := by
  intro inputs
  induction inputs with
  | nil => intro st h; exact h
  | cons i t ih =>
      intro st h
      exact ih _ (payloadStep_inv E M compressionLevel isBundle st i h)

/-- C8: the `axpc` SHA-256 sink digests exactly the local file record
bytes written during the pre-signature phase, in archive order — after
the payload phase its accumulated stream is the concatenation of the
per-entry records, byte-identical to the output file so far — while
the signature and directory writes go through `zipSink` alone and
leave the `axpc` stream untouched; and no run of this source ever
reaches the point where the finished digest would be read and handed
to the signer. -/
theorem claim_C8_axpc_records (E : Ext) (M : DeflateModel)
    (inputs : List AppxInput) (compressionLevel : Nat) (isBundle : Bool)
    (st : AppxSinkSt) (b : Bytes) :
    ((writeAppxPayloadPhase E M inputs compressionLevel
        isBundle).sink.axpcAcc =
      bytesConcat (writeAppxPayloadPhase E M inputs compressionLevel
        isBundle).records) ∧
    ((writeAppxPayloadPhase E M inputs compressionLevel
        isBundle).sink.fileBytes =
      (writeAppxPayloadPhase E M inputs compressionLevel
        isBundle).sink.axpcAcc) ∧
    ((zipWrite st b).axpcAcc = st.axpcAcc) ∧
    ((phase1Write st b).axpcAcc = st.axpcAcc ++ b) ∧
    writeAppx sampleExt sampleDeflate
      [⟨"AppxManifest.xml".toList, "<x/>".toList⟩]
      (some (fun _ => [1, 2, 3])) 0 false = none := by
  have hbase : payloadInv ⟨⟨[], 0, []⟩, [], [], ([], [])⟩ := ⟨rfl, rfl⟩
  have hfold := payloadFold_inv E M compressionLevel isBundle inputs _ hbase
  have hmain : payloadInv (writeAppxPayloadPhase E M inputs compressionLevel
      isBundle) := by
    unfold writeAppxPayloadPhase
    split
    · exact bundleManifestStep_inv E M compressionLevel _ hfold
    · exact hfold
  exact ⟨hmain.1, hmain.2, rfl, rfl,
    writeAppx_none sampleExt sampleDeflate _ _ 0 false⟩

/-!
## Claim C9 — determinism and the fixed MS-DOS timestamp
-/

/-- C9: packaging is a pure function of the archive-name-to-content
mapping (in iteration order), the options, and the signer's output —
two runs with equal arguments produce identical results, there being
no clock or randomness in the pipeline — and every entry's local file
header and central-directory entry carry the fixed MS-DOS timestamp
`time = 0x8706`, `date = 0x4722` at their fixed byte positions. -/
theorem claim_C9_deterministic (E : Ext) (M : DeflateModel)
    (inputs₁ inputs₂ : List AppxInput)
    (signer₁ signer₂ : Option (Bytes → Bytes))
    (level₁ level₂ : Nat) (bundle₁ bundle₂ : Bool) (e : ZIPFileEntry)
    (hi : inputs₁ = inputs₂) (hs : signer₁ = signer₂)
    (hl : level₁ = level₂) (hb : bundle₁ = bundle₂) :
    writeAppx E M inputs₁ signer₁ level₁ bundle₁ =
      writeAppx E M inputs₂ signer₂ level₂ bundle₂ ∧
    (e.fileRecordHeaderBytes.drop 10).take 4 = [0x06, 0x87, 0x22, 0x47] ∧
    (e.directoryEntryBytes.drop 12).take 4 = [0x06, 0x87, 0x22, 0x47] := by
  subst hi hs hl hb
  refine ⟨rfl, ?_, ?_⟩
  · simp [ZIPFileEntry.fileRecordHeaderBytes, bytes4LE, bytes2LE,
      kFileTime, kFileDate, kFileExtractVersion]
  · simp [ZIPFileEntry.directoryEntryBytes, bytes4LE, bytes2LE,
      kFileTime, kFileDate, kFileExtractVersion, kArchiverVersion]

/-- Witness for C9 at concrete equal arguments and a concrete entry. -/
theorem claim_C9_deterministic_witness :
    writeAppx sampleExt sampleDeflate [⟨"a.txt".toList, "hello".toList⟩]
        none 0 false =
      writeAppx sampleExt sampleDeflate [⟨"a.txt".toList, "hello".toList⟩]
        none 0 false ∧
    ((mkStoredZIPFileEntry "a.txt".toList 5 0 0 []
        zeroHash32).fileRecordHeaderBytes.drop 10).take 4 =
      [0x06, 0x87, 0x22, 0x47] ∧
    ((mkStoredZIPFileEntry "a.txt".toList 5 0 0 []
        zeroHash32).directoryEntryBytes.drop 12).take 4 =
      [0x06, 0x87, 0x22, 0x47] :=
  claim_C9_deterministic sampleExt sampleDeflate _ _ none none 0 0 false
    false (mkStoredZIPFileEntry "a.txt".toList 5 0 0 [] zeroHash32)
    rfl rfl rfl rfl

end FBAppx
